import Mathlib

/-!
Verification of the `pobu::owned_pointer` library (src/owned_pointer.hpp).

Shallow embedding: raw pointers are natural-number addresses with `0` playing
the role of `nullptr`.  A `control_block` mirrors
`detail::control_block = std::tuple<void*, bool, bool>` together with the
strong reference count of the `std::shared_ptr<control_block>` that owns it
(`rc = 0` means the block has been destroyed).  A resource record tracks the
user object: its address, whether it carries the `detail::shared_secret`
beacon (i.e. it was built through `make_owned` for a type with a virtual
destructor, so it is a `destruction_notify_object`), the beacon's
`weak_control_block` target, and whether the object is still alive.

An `owned_pointer` handle is `Option Nat`: `none` is an empty
`shared_ptr` base (default- or nullptr-constructed handle), `some i` points
at control block number `i` in the state.  A `std::unique_ptr` is modelled by
the address it owns (`0` = empty).
-/

namespace Pobu

/-- Model of `detail::control_block` plus the owning `shared_ptr`'s strong
reference count. Slots `_ptr`, `_acquired`, `_deleted` of the tuple. -/
structure ControlBlock where
  ptr : Nat
  acquired : Bool
  deleted : Bool
  rc : Nat
  deriving Repr, DecidableEq

/-- A tracked user object: its address (never 0), whether it is a
`destruction_notify_object` (carries the `shared_secret` beacon), the
beacon's `weak_control_block` target, and whether the object is alive. -/
structure Resource where
  addr : Nat
  hasBeacon : Bool
  weakCB : Option Nat
  alive : Bool
  deriving Repr, DecidableEq

/-- The whole mutable world: control blocks (indexed by position; an entry is
never removed, `rc = 0` marks a destroyed block) and resources. -/
structure State where
  cbs : List ControlBlock
  ress : List Resource
  deriving Repr, DecidableEq

/-- The two exception types of the library. -/
inductive PtrErr where
  | unique_ptr_already_acquired
  | ptr_is_already_deleted
  deriving Repr, DecidableEq

/-- Point update of a list (identity when the index is out of range). -/
def updAt : List α → Nat → (α → α) → List α
  | [], _, _ => []
  | a :: t, 0, f => f a :: t
  | a :: t, i + 1, f => a :: updAt t i f

theorem updAt_length (l : List α) (i : Nat) (f : α → α) :
    (updAt l i f).length = l.length := by
  induction l generalizing i with
  | nil => rfl
  | cons a t ih => cases i <;> simp [updAt, ih]

theorem getElem?_updAt (l : List α) (i j : Nat) (f : α → α) :
    (updAt l i f)[j]? = if i = j then Option.map f l[j]? else l[j]? := by
  induction l generalizing i j with
  | nil => simp [updAt]
  | cons a t ih =>
    cases i with
    | zero => cases j <;> simp [updAt]
    | succ i => cases j <;> simp [updAt, ih, Nat.succ_eq_add_one]

/-- Apply `f` to control block `i`. -/
def updCB (st : State) (i : Nat) (f : ControlBlock → ControlBlock) : State :=
  { st with cbs := updAt st.cbs i f }

/-- Apply `f` to the resource at address `a`. -/
def updRes (st : State) (a : Nat) (f : Resource → Resource) : State :=
  { st with ress := st.ress.map fun r => if r.addr = a then f r else r }

/-- Look up the resource record at address `a`. -/
def findRes (st : State) (a : Nat) : Option Resource :=
  st.ress.find? fun r => r.addr == a

/-- Strong reference count of control block `i` (0 when absent/destroyed). -/
def rcAt (st : State) (i : Nat) : Nat :=
  match st.cbs[i]? with
  | some cb => cb.rc
  | none => 0

/-- `owned_pointer::get_pointer()`: the raw address in the control block; a
handle with an empty base yields `nullptr`. -/
def get_pointer (st : State) (h : Option Nat) : Nat :=
  match h with
  | none => 0
  | some i =>
    match st.cbs[i]? with
    | some cb => cb.ptr
    | none => 0

/-- `owned_pointer::acquired()`: base non-null and the `_acquired` slot. -/
def acquired (st : State) (h : Option Nat) : Bool :=
  match h with
  | none => false
  | some i =>
    match st.cbs[i]? with
    | some cb => cb.acquired
    | none => false

/-- `owned_pointer::expired()`: base non-null and the `_deleted` slot. -/
def expired (st : State) (h : Option Nat) : Bool :=
  match h with
  | none => false
  | some i =>
    match st.cbs[i]? with
    | some cb => cb.deleted
    | none => false

/-- `owned_pointer::operator bool()`: `get_pointer() != nullptr`. -/
def opBool (st : State) (h : Option Nat) : Bool :=
  get_pointer st h != 0

/-- `owned_pointer::get()`: `throw_if_is_destroyed_and_has_virtual_dtor`
then `get_pointer`. -/
def get (st : State) (h : Option Nat) : Except PtrErr Nat :=
  if expired st h then .error .ptr_is_already_deleted
  else .ok (get_pointer st h)

/-- `owned_pointer::operator->()`: same body as `get()`. -/
def opArrow (st : State) (h : Option Nat) : Except PtrErr Nat :=
  if expired st h then .error .ptr_is_already_deleted
  else .ok (get_pointer st h)

/-- `owned_pointer::operator*()`: same check, dereferences the same raw
address. -/
def opStar (st : State) (h : Option Nat) : Except PtrErr Nat :=
  if expired st h then .error .ptr_is_already_deleted
  else .ok (get_pointer st h)

/-- `owned_pointer::unique_ptr()`: if the raw pointer is non-null and not yet
acquired, set `_acquired` and hand out a `unique_ptr` to the same address;
if already acquired, throw `unique_ptr_already_acquired`; on a null pointer
return an empty `unique_ptr` with no error.  Returns the state (unchanged on
the throwing path, as a C++ throw leaves it) with the result. -/
def unique_ptr (st : State) (h : Option Nat) : State × Except PtrErr Nat :=
  if get_pointer st h ≠ 0 then
    if acquired st h then (st, .error .unique_ptr_already_acquired)
    else
      (match h with
       | some i => updCB st i fun cb => { cb with acquired := true }
       | none => st,
       .ok (get_pointer st h))
  else (st, .ok 0)

/-- Fresh control block as allocated by
`new detail::control_block(p, {}, {})`, owned with strong count 1. -/
def control_block_init (p : Nat) : ControlBlock :=
  { ptr := p, acquired := false, deleted := false, rc := 1 }

/-- `dynamic_cast<detail::shared_secret*>(p)` succeeds: `p` non-null and the
object at `p` is a `destruction_notify_object`. -/
def hasSecret (st : State) (p : Nat) : Bool :=
  if p = 0 then false
  else
    match findRes st p with
    | some r => r.hasBeacon
    | none => false

/-- `get_secret_when_possible(p)` followed by
`ss->weak_control_block.lock()`: the index of the still-live control block
the beacon points at, when there is one. -/
def lockSecret (st : State) (p : Nat) : Option Nat :=
  if p = 0 then none
  else
    match findRes st p with
    | some r =>
      if r.hasBeacon then
        match r.weakCB with
        | some i => if 0 < rcAt st i then some i else none
        | none => none
      else none
    | none => none

/-- The private constructor `owned_pointer(element_type* p, bool acquired)`:
attach to the live control block recovered through the beacon when possible,
otherwise allocate a fresh block and (if the object carries the beacon)
install the weak back-reference; in both cases finally write the `_acquired`
slot.  Returns the new state and the handle's base. -/
def owned_pointer_ctor (st : State) (p : Nat) (acq : Bool) :
    State × Option Nat :=
  match lockSecret st p with
  | some i =>
    let st1 := updCB st i fun cb => { cb with rc := cb.rc + 1 }
    (updCB st1 i fun cb => { cb with acquired := acq }, some i)
  | none =>
    let n := st.cbs.length
    let st1 : State := { st with cbs := st.cbs ++ [control_block_init p] }
    let st2 :=
      if hasSecret st p then updRes st1 p fun r => { r with weakCB := some n }
      else st1
    (updCB st2 n fun cb => { cb with acquired := acq }, some n)

/-- `owned_pointer(std::unique_ptr<T> p)`: release the address and run the
private constructor with `acquired = false`. -/
def fromUnique (st : State) (u : Nat) : State × Option Nat :=
  owned_pointer_ctor st u false

/-- `link(u)`: capture the raw address of a `unique_ptr` without touching it
(`detail::unique_ptr_link` stores `u.get()`). -/
def link (u : Nat) : Nat := u

/-- `owned_pointer(detail::unique_ptr_link<T>&&)`: run the private
constructor with `acquired = true`. -/
def fromLink (st : State) (tok : Nat) : State × Option Nat :=
  owned_pointer_ctor st tok true

/-- A fresh address for `make_owned`'s allocation: one past every address in
use. -/
def freshAddr (st : State) : Nat :=
  (st.ress.map Resource.addr).foldr max 0 + 1

/-- `make_owned<T>(args...)`: allocate the object (wrapped in
`destruction_notify_object` exactly when `T` has a virtual destructor) and
wrap the resulting `unique_ptr` into an `owned_pointer`. -/
def make_owned (st : State) (virtualDtor : Bool) : State × Option Nat :=
  let a := freshAddr st
  let st1 : State :=
    { st with
      ress := st.ress ++ [{ addr := a, hasBeacon := virtualDtor,
                            weakCB := none, alive := true }] }
  fromUnique st1 a

/-- Copying an `owned_pointer` (or converting copy): the `shared_ptr` base is
copied, bumping the strong count of the shared control block. -/
def copyHandle (st : State) (h : Option Nat) : State :=
  match h with
  | none => st
  | some i => updCB st i fun cb => { cb with rc := cb.rc + 1 }

/-- `detail::shared_secret::delete_event()` run from the destructor of the
object at address `a`: if the object carries the beacon and
`weak_control_block.lock()` succeeds, set the `_deleted` slot. -/
def delete_event (st : State) (a : Nat) : State :=
  match findRes st a with
  | some r =>
    if r.hasBeacon then
      match r.weakCB with
      | some i =>
        if 0 < rcAt st i then updCB st i fun cb => { cb with deleted := true }
        else st
      | none => st
    else st
  | none => st

/-- `delete p` on the tracked object at address `a`: the destructor fires the
beacon's `delete_event` (a no-op without a beacon or without a live control
block), then the object is gone. -/
def destroyResource (st : State) (a : Nat) : State :=
  updRes (delete_event st a) a fun r => { r with alive := false }

/-- Destroying one `owned_pointer` handle: the `shared_ptr` base drops its
strong count; when the count reaches zero `detail::deleter` runs: it deletes
the tracked object unless `_acquired` is set, then frees the block storage
(modelled as the count staying 0). -/
def destroyHandle (st : State) (h : Option Nat) : State :=
  match h with
  | none => st
  | some i =>
    match st.cbs[i]? with
    | none => st
    | some cb =>
      if cb.rc ≤ 1 then
        let st1 := updCB st i fun c => { c with rc := 0 }
        if cb.acquired then st1 else destroyResource st1 cb.ptr
      else updCB st i fun c => { c with rc := cb.rc - 1 }

/-- The public operations a client can perform, for trace-level invariants. -/
inductive Op where
  | fromUnique (u : Nat)
  | fromLink (u : Nat)
  | mkOwned (virtualDtor : Bool)
  | copy (h : Option Nat)
  | acquire (h : Option Nat)
  | deref (h : Option Nat)
  | dropHandle (h : Option Nat)
  | dropResource (a : Nat)
  deriving Repr, DecidableEq

/-- Effect of one public operation on the shared state. -/
def applyOp (st : State) : Op → State
  | .fromUnique u => (fromUnique st u).1
  | .fromLink u => (fromLink st u).1
  | .mkOwned v => (make_owned st v).1
  | .copy h => copyHandle st h
  | .acquire h => (unique_ptr st h).1
  | .deref _ => st
  | .dropHandle h => destroyHandle st h
  | .dropResource a => destroyResource st a

/-! ### Basic lemmas about the state operations -/

theorem cbs_updCB (st : State) (i : Nat) (f : ControlBlock → ControlBlock)
    (j : Nat) :
    (updCB st i f).cbs[j]? =
      if i = j then Option.map f st.cbs[j]? else st.cbs[j]? :=
  getElem?_updAt st.cbs i j f

theorem cbs_updRes (st : State) (a : Nat) (f : Resource → Resource) :
    (updRes st a f).cbs = st.cbs := rfl

theorem ress_updCB (st : State) (i : Nat) (f : ControlBlock → ControlBlock) :
    (updCB st i f).ress = st.ress := rfl

theorem get_pointer_updCB (st : State) (i : Nat)
    (f : ControlBlock → ControlBlock) (hp : ∀ cb, (f cb).ptr = cb.ptr)
    (h : Option Nat) : get_pointer (updCB st i f) h = get_pointer st h := by
  cases h with
  | none => rfl
  | some j =>
    simp only [get_pointer, cbs_updCB]
    by_cases hij : i = j
    · subst hij
      cases hc : st.cbs[i]? <;> simp [hc, hp]
    · simp [hij]

theorem expired_updCB (st : State) (i : Nat)
    (f : ControlBlock → ControlBlock) (hp : ∀ cb, (f cb).deleted = cb.deleted)
    (h : Option Nat) : expired (updCB st i f) h = expired st h := by
  cases h with
  | none => rfl
  | some j =>
    simp only [expired, cbs_updCB]
    by_cases hij : i = j
    · subst hij
      cases hc : st.cbs[i]? <;> simp [hc, hp]
    · simp [hij]

theorem unique_ptr_of_null (st : State) (h : Option Nat)
    (h0 : get_pointer st h = 0) : unique_ptr st h = (st, .ok 0) := by
  simp [unique_ptr, h0]

theorem unique_ptr_of_acquired (st : State) (h : Option Nat)
    (h0 : get_pointer st h ≠ 0) (ha : acquired st h = true) :
    unique_ptr st h = (st, .error .unique_ptr_already_acquired) := by
  simp [unique_ptr, h0, ha]

theorem unique_ptr_of_free (st : State) (i : Nat)
    (h0 : get_pointer st (some i) ≠ 0) (ha : acquired st (some i) = false) :
    unique_ptr st (some i) =
      (updCB st i fun cb => { cb with acquired := true },
        .ok (get_pointer st (some i))) := by
  simp [unique_ptr, h0, ha]

/-! ### C1: acquisition semantics of `unique_ptr()` -/

/-- C1: `unique_ptr()` on a handle whose raw pointer is null returns an empty
`unique_ptr` with no error and does not change the state; when the shared
control block is already acquired it throws `unique_ptr_already_acquired`
leaving the state unchanged; otherwise it sets the `_acquired` slot and
returns a `unique_ptr` to the same raw address.  Consequently, of two
`unique_ptr()` calls issued through copies sharing one control block (all
such copies hold the same block index `i`), the first succeeds and the
second throws, regardless of which copy issues each call. -/
theorem c1_acquire_semantics (st : State) (h : Option Nat) :
    (get_pointer st h = 0 → unique_ptr st h = (st, .ok 0)) ∧
    (get_pointer st h ≠ 0 → acquired st h = true →
      unique_ptr st h = (st, .error .unique_ptr_already_acquired)) ∧
    (∀ i, h = some i → get_pointer st h ≠ 0 → acquired st h = false →
      (unique_ptr st h).2 = .ok (get_pointer st h) ∧
      acquired (unique_ptr st h).1 (some i) = true ∧
      get_pointer (unique_ptr st h).1 (some i) = get_pointer st h ∧
      (unique_ptr (unique_ptr st h).1 (some i)).2 =
        .error .unique_ptr_already_acquired) := by
  refine ⟨unique_ptr_of_null st h, unique_ptr_of_acquired st h, ?_⟩
  rintro i rfl hptr hacq
  have hcb : ∃ cb, st.cbs[i]? = some cb := by
    cases hc : st.cbs[i]? with
    | none => exact absurd (by simp [get_pointer, hc]) hptr
    | some cb => exact ⟨cb, rfl⟩
  obtain ⟨cb, hcb⟩ := hcb
  have hstep := unique_ptr_of_free st i hptr hacq
  have h2 : get_pointer (unique_ptr st (some i)).1 (some i) ≠ 0 := by
    rw [hstep]
    simpa [get_pointer_updCB] using hptr
  have h3 : acquired (unique_ptr st (some i)).1 (some i) = true := by
    rw [hstep]
    simp [acquired, cbs_updCB, hcb]
  refine ⟨by rw [hstep], h3, ?_, ?_⟩
  · rw [hstep]
    simp [get_pointer_updCB]
  · rw [unique_ptr_of_acquired _ _ h2 h3]

/-- Witness for C1 at a concrete state: one control block holding address 5,
not acquired, not deleted. -/
theorem c1_acquire_semantics_witness :
    (unique_ptr ⟨[⟨5, false, false, 1⟩], []⟩ (some 0)).2 = .ok 5 ∧
    (unique_ptr (unique_ptr ⟨[⟨5, false, false, 1⟩], []⟩ (some 0)).1
        (some 0)).2 = .error .unique_ptr_already_acquired := by
  have h := (c1_acquire_semantics ⟨[⟨5, false, false, 1⟩], []⟩ (some 0)).2.2
    0 rfl (by decide) (by decide)
  exact ⟨h.1, h.2.2.2⟩

/-! ### Characterization of the private constructor -/

theorem updAt_concat (l : List α) (a : α) (f : α → α) :
    updAt (l ++ [a]) l.length f = l ++ [f a] := by
  induction l with
  | nil => rfl
  | cons x t ih => simp [updAt, ih]

/-- When the beacon recovers a live control block, the constructor attaches:
no allocation, the handle shares block `i`, the strong count is bumped and
the `_acquired` slot is overwritten with the constructor's flag. -/
theorem ctor_attach (st : State) (p : Nat) (acq : Bool) (i : Nat)
    (hl : lockSecret st p = some i) :
    (owned_pointer_ctor st p acq).2 = some i ∧
    (owned_pointer_ctor st p acq).1 =
      updCB (updCB st i fun cb => { cb with rc := cb.rc + 1 }) i
        (fun cb => { cb with acquired := acq }) := by
  simp [owned_pointer_ctor, hl]

/-- When no live back-reference exists, the constructor allocates a fresh
control block `(p, acq, false)` with strong count 1 at the end of the list. -/
theorem ctor_fresh (st : State) (p : Nat) (acq : Bool)
    (hl : lockSecret st p = none) :
    (owned_pointer_ctor st p acq).2 = some st.cbs.length ∧
    (owned_pointer_ctor st p acq).1.cbs =
      st.cbs ++ [{ ptr := p, acquired := acq, deleted := false, rc := 1 }] := by
  refine ⟨by simp [owned_pointer_ctor, hl], ?_⟩
  simp only [owned_pointer_ctor, hl]
  by_cases hs : hasSecret st p <;>
    simp [hs, updCB, updRes, control_block_init, updAt_concat]

/-! ### C4: dereference checks the deleted flag on every access -/

/-- C4: on a handle over control block `i`, each of `get()`, `operator->`
and `operator*` throws `ptr_is_already_deleted` exactly when the block's
`_deleted` slot is set and otherwise returns the raw address; the check is
re-evaluated at each call (each is a function of the current state).  The
queries `acquired()` and `expired()` just read their slot and never throw,
and a null handle dereferences to null without error. -/
theorem c4_deref_always_checks (st : State) (i : Nat) (cb : ControlBlock)
    (hcb : st.cbs[i]? = some cb) :
    (get st (some i) =
      if cb.deleted then .error .ptr_is_already_deleted else .ok cb.ptr) ∧
    (opArrow st (some i) =
      if cb.deleted then .error .ptr_is_already_deleted else .ok cb.ptr) ∧
    (opStar st (some i) =
      if cb.deleted then .error .ptr_is_already_deleted else .ok cb.ptr) ∧
    (acquired st (some i) = cb.acquired) ∧
    (expired st (some i) = cb.deleted) ∧
    (get st none = .ok 0) := by
  cases hd : cb.deleted <;>
    simp [get, opArrow, opStar, expired, get_pointer, acquired, hcb, hd]

/-- Witness for C4 at a deleted block and at a live block. -/
theorem c4_deref_always_checks_witness :
    get ⟨[⟨7, false, true, 1⟩], []⟩ (some 0) =
        .error .ptr_is_already_deleted ∧
    get ⟨[⟨7, false, false, 1⟩], []⟩ (some 0) = .ok 7 := by
  refine ⟨?_, ?_⟩
  · have h := (c4_deref_always_checks ⟨[⟨7, false, true, 1⟩], []⟩ 0
      ⟨7, false, true, 1⟩ rfl).1
    simpa using h
  · have h := (c4_deref_always_checks ⟨[⟨7, false, false, 1⟩], []⟩ 0
      ⟨7, false, false, 1⟩ rfl).1
    simpa using h

/-! ### C10: a handle linked from a null `unique_ptr` -/

/-- C10: building an `owned_pointer` from `link` over an empty `unique_ptr`
succeeds, yields a handle whose `get()` returns null without error and whose
`operator bool` is false, yet whose `acquired()` query is true (the fresh
control block holds a null pointer with the `_acquired` slot set) — whereas
a default- or `nullptr`-constructed handle (empty `shared_ptr` base) reports
`acquired() = false`. -/
theorem c10_null_link_acquired (st : State) :
    get_pointer (fromLink st (link 0)).1 (fromLink st (link 0)).2 = 0 ∧
    opBool (fromLink st (link 0)).1 (fromLink st (link 0)).2 = false ∧
    acquired (fromLink st (link 0)).1 (fromLink st (link 0)).2 = true ∧
    get (fromLink st (link 0)).1 (fromLink st (link 0)).2 = .ok 0 ∧
    acquired st none = false := by
  have hl : lockSecret st 0 = none := by simp [lockSecret]
  obtain ⟨h2, hcbs⟩ := ctor_fresh st 0 true hl
  have hval : (fromLink st (link 0)).1.cbs[st.cbs.length]? =
      some { ptr := 0, acquired := true, deleted := false, rc := 1 } := by
    show (owned_pointer_ctor st 0 true).1.cbs[st.cbs.length]? = _
    rw [hcbs]
    exact List.getElem?_concat_length st.cbs _
  have hh : (fromLink st (link 0)).2 = some st.cbs.length := h2
  rw [hh]
  refine ⟨?_, ?_, ?_, ?_, rfl⟩
  · simp [get_pointer, hval]
  · simp [opBool, get_pointer, hval]
  · simp [acquired, hval]
  · simp [get, expired, get_pointer, hval]

/-! ### C8: address-based comparison and derived operators

`compare` and every derived operator are pure functions of the current
state (they are `noexcept` in the source and perform no writes); in the
embedding this is visible from their types: they return values and never a
new `State`. -/

/-- `owned_pointer::compare(const void*)`: `0` on equal addresses, `-1`
when this handle's address is lower, `+1` when higher. -/
def compare (a ptr : Nat) : Int :=
  if a = ptr then 0 else if a < ptr then -1 else 1

/-- `owned_pointer::compare(const owned_pointer<T>&)`: compare the two raw
addresses. -/
def compareH (st : State) (p q : Option Nat) : Int :=
  compare (get_pointer st p) (get_pointer st q)

/-- `operator==(owned, owned)`: `p1.compare(p2) == 0`. -/
def eqH (st : State) (p q : Option Nat) : Bool :=
  compareH st p q == 0

/-- `operator!=(owned, owned)`: `not (p1 == p2)`. -/
def neH (st : State) (p q : Option Nat) : Bool :=
  !(eqH st p q)

/-- `operator<(owned, owned)`: `p1.compare(p2) < 0`. -/
def ltH (st : State) (p q : Option Nat) : Bool :=
  decide (compareH st p q < 0)

/-- `operator<=(owned, owned)`: `p1.compare(p2) <= 0`. -/
def leH (st : State) (p q : Option Nat) : Bool :=
  decide (compareH st p q ≤ 0)

/-- `operator>(owned, owned)`: `p1.compare(p2) > 0`. -/
def gtH (st : State) (p q : Option Nat) : Bool :=
  decide (0 < compareH st p q)

/-- `operator>=(owned, owned)`: `p1.compare(p2) >= 0`. -/
def geH (st : State) (p q : Option Nat) : Bool :=
  decide (0 ≤ compareH st p q)

/-- `operator==(owned, T*)` (and, via `p2.get()`, `operator==` against a
`unique_ptr`): `p1.compare(raw) == 0`. -/
def eqRaw (st : State) (p : Option Nat) (a : Nat) : Bool :=
  compare (get_pointer st p) a == 0

theorem compare_eq_zero_iff (a b : Nat) : compare a b = 0 ↔ a = b := by
  unfold compare
  split_ifs with h1 h2 <;> simp_all

theorem compare_neg_iff (a b : Nat) : compare a b < 0 ↔ a < b := by
  unfold compare
  split_ifs with h1 h2 <;> omega

theorem compare_pos_iff (a b : Nat) : 0 < compare a b ↔ b < a := by
  unfold compare
  split_ifs with h1 h2 <;> omega

theorem compare_nonpos_iff (a b : Nat) : compare a b ≤ 0 ↔ a ≤ b := by
  unfold compare
  split_ifs with h1 h2 <;> omega

theorem compare_nonneg_iff (a b : Nat) : 0 ≤ compare a b ↔ b ≤ a := by
  unfold compare
  split_ifs with h1 h2 <;> omega

/-- C8: `compare` returns 0 exactly on equal raw addresses (so two null
handles are equal), `-1` when the first address is lower and `+1` when it is
higher; the derived operators are the corresponding equality / strict total
order on addresses (irreflexive, transitive, trichotomous, with `<=`, `>`,
`>=`, `!=` consistent with `<` and `==`), and comparing against a raw
address or a `unique_ptr`'s address agrees with comparing against a handle
holding that address. -/
theorem c8_compare_total_order (st : State) (p q r : Option Nat) (a b : Nat) :
    (compare a b = 0 ↔ a = b) ∧
    (a < b → compare a b = -1) ∧
    (b < a → compare a b = 1) ∧
    (eqH st p q = true ↔ get_pointer st p = get_pointer st q) ∧
    (eqH st none none = true) ∧
    (neH st p q = !(eqH st p q)) ∧
    (ltH st p q = true ↔ get_pointer st p < get_pointer st q) ∧
    (leH st p q = true ↔ get_pointer st p ≤ get_pointer st q) ∧
    (gtH st p q = ltH st q p) ∧
    (geH st p q = leH st q p) ∧
    (ltH st p p = false) ∧
    (ltH st p q = true → ltH st q r = true → ltH st p r = true) ∧
    (eqH st p q = true ∨ ltH st p q = true ∨ gtH st p q = true) ∧
    (¬(ltH st p q = true ∧ gtH st p q = true)) ∧
    (¬(eqH st p q = true ∧ ltH st p q = true)) ∧
    (eqH st p q = eqRaw st p (get_pointer st q)) := by
  have hc0 := compare_eq_zero_iff
  have hcn := compare_neg_iff
  have hcp := compare_pos_iff
  have heq : ∀ x y, eqH st x y = true ↔
      get_pointer st x = get_pointer st y := by
    intro x y
    simp [eqH, compareH, hc0]
  have hlt : ∀ x y, ltH st x y = true ↔
      get_pointer st x < get_pointer st y := by
    intro x y
    simp [ltH, compareH, hcn]
  have hgt : ∀ x y, gtH st x y = true ↔
      get_pointer st y < get_pointer st x := by
    intro x y
    simp [gtH, compareH, hcp]
  refine ⟨hc0 a b, ?_, ?_, heq p q, (heq none none).2 rfl, rfl, hlt p q, ?_,
    ?_, ?_, ?_, ?_, ?_, ?_, ?_, ?_⟩
  · intro h
    simp [compare, h, Nat.ne_of_lt h]
  · intro h
    simp [compare, Nat.lt_asymm h, (Nat.ne_of_lt h).symm]
  · simp [leH, compareH, compare_nonpos_iff]
  · exact decide_eq_decide.mpr
      (by rw [compareH, compareH, compare_pos_iff, compare_neg_iff])
  · exact decide_eq_decide.mpr
      (by rw [compareH, compareH, compare_nonneg_iff, compare_nonpos_iff])
  · simp [ltH, compareH, compare]
  · intro h1 h2
    exact (hlt p r).2 (lt_trans ((hlt p q).1 h1) ((hlt q r).1 h2))
  · rcases Nat.lt_trichotomy (get_pointer st p) (get_pointer st q) with h | h | h
    · exact Or.inr (Or.inl ((hlt p q).2 h))
    · exact Or.inl ((heq p q).2 h)
    · exact Or.inr (Or.inr ((hgt p q).2 h))
  · rintro ⟨h1, h2⟩
    exact Nat.lt_asymm ((hlt p q).1 h1) ((hgt p q).1 h2)
  · rintro ⟨h1, h2⟩
    exact absurd ((heq p q).1 h1) (Nat.ne_of_lt ((hlt p q).1 h2))
  · rfl

/-- Witness for C8's conditional clauses at concrete addresses/handles
(three live control blocks at addresses 1 < 2 < 3, exercising the ordering,
the sign clauses and transitivity). -/
theorem c8_compare_total_order_witness :
    compare 1 2 = -1 ∧ compare 2 1 = 1 ∧
    ltH ⟨[⟨1, false, false, 1⟩, ⟨2, false, false, 1⟩, ⟨3, false, false, 1⟩],
      []⟩ (some 0) (some 2) = true := by
  refine ⟨(c8_compare_total_order ⟨[], []⟩ none none none 1 2).2.1
      (by decide),
    (c8_compare_total_order ⟨[], []⟩ none none none 2 1).2.2.1 (by decide),
    (c8_compare_total_order
      ⟨[⟨1, false, false, 1⟩, ⟨2, false, false, 1⟩, ⟨3, false, false, 1⟩],
        []⟩ (some 0) (some 1) (some 2) 1 2).2.2.2.2.2.2.2.2.2.2.2.1
      (by decide) (by decide)⟩

/-! ### Lemmas about resource lookup and fresh addresses -/

theorem find?_map_pres {α β : Type _} (g : α → α) (p : α → Bool) (v : α → β)
    (l : List α) (hp : ∀ x, p (g x) = p x) (hv : ∀ x, v (g x) = v x) :
    ((l.map g).find? p).map v = (l.find? p).map v := by
  induction l with
  | nil => rfl
  | cons x t ih =>
    by_cases hx : p x = true
    · rw [List.map_cons, List.find?_cons_of_pos _ (by rw [hp]; exact hx),
        List.find?_cons_of_pos _ hx]
      simp [hv]
    · rw [List.map_cons,
        List.find?_cons_of_neg _ (by rw [hp]; simpa using hx),
        List.find?_cons_of_neg _ (by simpa using hx)]
      exact ih

theorem find?_append_of_none {α : Type _} (p : α → Bool) (l₁ l₂ : List α)
    (h : l₁.find? p = none) : (l₁ ++ l₂).find? p = l₂.find? p := by
  induction l₁ with
  | nil => rfl
  | cons x t ih =>
    by_cases hx : p x = true
    · rw [List.find?_cons_of_pos _ hx] at h
      cases h
    · rw [List.cons_append, List.find?_cons_of_neg _ (by simpa using hx)]
      rw [List.find?_cons_of_neg _ (by simpa using hx)] at h
      exact ih h

theorem le_foldr_max (l : List Nat) (a : Nat) (ha : a ∈ l) :
    a ≤ l.foldr max 0 := by
  induction l with
  | nil => cases ha
  | cons x t ih =>
    rcases List.mem_cons.1 ha with rfl | ha'
    · exact le_max_left _ _
    · exact le_trans (ih ha') (le_max_right _ _)

/-- No resource in `st` sits at the fresh address chosen by `make_owned`. -/
theorem findRes_freshAddr (st : State) : findRes st (freshAddr st) = none := by
  unfold findRes
  cases hf : st.ress.find? (fun r => r.addr == freshAddr st) with
  | none => rfl
  | some r =>
    have hmem := List.mem_of_find?_eq_some hf
    have heq : r.addr = freshAddr st := by
      simpa using List.find?_some hf
    have hle : r.addr ≤ (st.ress.map Resource.addr).foldr max 0 :=
      le_foldr_max _ _ (List.mem_map_of_mem Resource.addr hmem)
    rw [heq] at hle
    exact absurd hle (by simp [freshAddr])

theorem lockSecret_live (st : State) (p i : Nat)
    (h : lockSecret st p = some i) : 0 < rcAt st i := by
  by_cases hp : p = 0
  · simp [lockSecret, hp] at h
  · simp only [lockSecret, hp, if_false] at h
    cases hr : findRes st p with
    | none => simp [hr] at h
    | some r =>
      simp only [hr] at h
      by_cases hb : r.hasBeacon
      · simp only [hb, if_true] at h
        cases hw : r.weakCB with
        | none => simp [hw] at h
        | some j =>
          simp only [hw] at h
          by_cases hrc : 0 < rcAt st j
          · simp only [hrc, if_true, Option.some.injEq] at h
            exact h ▸ hrc
          · simp [hrc] at h
      · simp [hb] at h

theorem rcAt_cb (st : State) (i : Nat) (h : 0 < rcAt st i) :
    ∃ cb, st.cbs[i]? = some cb := by
  cases hc : st.cbs[i]? with
  | none => rw [rcAt, hc] at h; cases h
  | some cb => exact ⟨cb, rfl⟩

/-! ### C6: handles built from a link token -/

/-- C6: `link(u)` captures the raw address of the `unique_ptr` without
consuming it (it is a read of `u.get()`, returning the very address), and
the `owned_pointer` built from the token reports `acquired() = true`
immediately — for every starting state, in particular one in which
`unique_ptr()` was never called.  Consuming the token never destroys any
tracked object: every resource's `alive` bit is untouched.  (That the token
type is non-copyable and movable once is enforced statically by its deleted
copy operations, `src/owned_pointer.hpp` lines 88-90.) -/
theorem c6_link_semantics (st : State) (u : Nat) :
    link u = u ∧
    acquired (fromLink st (link u)).1 (fromLink st (link u)).2 = true ∧
    (∀ a, (findRes (fromLink st (link u)).1 a).map Resource.alive =
      (findRes st a).map Resource.alive) := by
  refine ⟨rfl, ?_, ?_⟩
  · show acquired (owned_pointer_ctor st u true).1
      (owned_pointer_ctor st u true).2 = true
    cases hl : lockSecret st u with
    | some i =>
      obtain ⟨h2, hst⟩ := ctor_attach st u true i hl
      obtain ⟨cb, hcb⟩ := rcAt_cb st i (lockSecret_live st u i hl)
      rw [h2, hst]
      simp [acquired, cbs_updCB, hcb]
    | none =>
      obtain ⟨h2, hcbs⟩ := ctor_fresh st u true hl
      rw [h2]
      have : (owned_pointer_ctor st u true).1.cbs[st.cbs.length]? =
          some { ptr := u, acquired := true, deleted := false, rc := 1 } := by
        rw [hcbs]
        exact List.getElem?_concat_length st.cbs _
      simp [acquired, this]
  · intro a
    show (findRes (owned_pointer_ctor st u true).1 a).map Resource.alive = _
    cases hl : lockSecret st u with
    | some i =>
      obtain ⟨_, hst⟩ := ctor_attach st u true i hl
      rw [hst]
      rfl
    | none =>
      simp only [owned_pointer_ctor, hl]
      by_cases hs : hasSecret st u
      · simp only [hs, if_true]
        show ((updRes _ u _).ress.find? _).map Resource.alive = _
        exact find?_map_pres _ _ _ st.ress
          (fun r => by by_cases h : r.addr = u <;> simp [h])
          (fun r => by by_cases h : r.addr = u <;> simp [h])
      · simp only [hs, if_false]
        rfl

/-! ### C7: round-trip through `make_owned` and `unique_ptr()` -/

/-- C7: `make_owned` wraps a freshly allocated object into a shared handle
holding a non-null address, and immediately calling `unique_ptr()` on that
handle succeeds, yielding a `unique_ptr` owning exactly the address the
shared handle reports. -/
theorem c7_round_trip (st : State) (virt : Bool) :
    get_pointer (make_owned st virt).1 (make_owned st virt).2 ≠ 0 ∧
    (unique_ptr (make_owned st virt).1 (make_owned st virt).2).2 =
      .ok (get_pointer (make_owned st virt).1 (make_owned st virt).2) := by
  set a := freshAddr st with ha
  set st1 : State :=
    { st with ress := st.ress ++ [{ addr := a, hasBeacon := virt,
                                    weakCB := none, alive := true }] }
    with hst1
  have hfind : findRes st1 a =
      some { addr := a, hasBeacon := virt, weakCB := none, alive := true } := by
    show (st.ress ++ [_]).find? _ = _
    rw [find?_append_of_none _ st.ress _ (findRes_freshAddr st)]
    simp [List.find?]
  have hl : lockSecret st1 a = none := by
    have hane : a ≠ 0 := by simp [ha, freshAddr]
    simp only [lockSecret, hane, if_false, hfind]
    cases virt <;> simp
  have hmk : make_owned st virt = owned_pointer_ctor st1 a false := rfl
  obtain ⟨h2, hcbs⟩ := ctor_fresh st1 a false hl
  have hlen : st1.cbs = st.cbs := rfl
  have hval : (make_owned st virt).1.cbs[st1.cbs.length]? =
      some { ptr := a, acquired := false, deleted := false, rc := 1 } := by
    rw [hmk, hcbs]
    exact List.getElem?_concat_length st1.cbs _
  have hh : (make_owned st virt).2 = some st1.cbs.length := by rw [hmk, h2]
  have hgp : get_pointer (make_owned st virt).1 (make_owned st virt).2 = a := by
    rw [hh]
    simp [get_pointer, hval]
  have hacq : acquired (make_owned st virt).1 (make_owned st virt).2 =
      false := by
    rw [hh]
    simp [acquired, hval]
  have hane : a ≠ 0 := by simp [ha, freshAddr]
  refine ⟨by rw [hgp]; exact hane, ?_⟩
  rw [hh] at hgp hacq ⊢
  rw [unique_ptr_of_free _ _ (by rw [hgp]; exact hane) hacq]

theorem find?_map_comm {α : Type _} (g : α → α) (p : α → Bool) (l : List α)
    (hp : ∀ x, p (g x) = p x) :
    (l.map g).find? p = Option.map g (l.find? p) := by
  induction l with
  | nil => rfl
  | cons x t ih =>
    by_cases hx : p x = true
    · rw [List.map_cons, List.find?_cons_of_pos _ (by rw [hp]; exact hx),
        List.find?_cons_of_pos _ hx]
      rfl
    · rw [List.map_cons,
        List.find?_cons_of_neg _ (by rw [hp]; simpa using hx),
        List.find?_cons_of_neg _ (by simpa using hx)]
      exact ih

theorem findRes_updRes (st : State) (b : Nat) (f : Resource → Resource)
    (hf : ∀ r, (f r).addr = r.addr) (a : Nat) :
    findRes (updRes st b f) a =
      Option.map (fun r => if r.addr = b then f r else r) (findRes st a) :=
  find?_map_comm _ _ st.ress
    (fun r => by by_cases h : r.addr = b <;> simp [h, hf])

theorem ress_delete_event (st : State) (a : Nat) :
    (delete_event st a).ress = st.ress := by
  unfold delete_event
  cases hfr : findRes st a with
  | none => rfl
  | some r =>
    cases hw : r.weakCB with
    | none => by_cases hb : r.hasBeacon <;> simp [hb, hw]
    | some j =>
      by_cases hb : r.hasBeacon <;> by_cases hj : 0 < rcAt st j <;>
        simp [hb, hw, hj, ress_updCB]

theorem rcAt_delete_event (st : State) (a i : Nat) :
    rcAt (delete_event st a) i = rcAt st i := by
  unfold delete_event
  cases hfr : findRes st a with
  | none => rfl
  | some r =>
    cases hw : r.weakCB with
    | none => by_cases hb : r.hasBeacon <;> simp [hb, hw]
    | some j =>
      by_cases hb : r.hasBeacon
      · by_cases hj : 0 < rcAt st j
        · simp only [hb, hw, hj, if_true]
          simp only [rcAt, cbs_updCB]
          by_cases hji : j = i
          · subst hji
            cases hc : st.cbs[j]? <;> simp [hc]
          · simp [hji]
        · simp [hb, hw, hj]
      · simp [hb]

/-! ### C3: the destruction beacon notifies every surviving handle -/

/-- C3: when the tracked object of a beacon-bearing resource is destroyed
(e.g. by dropping the `unique_ptr` obtained from `unique_ptr()`), its
destructor runs `delete_event` — exactly once, since it is the destructor
body of `destruction_notify_object` — and, the weak back-reference still
resolving, sets the `_deleted` slot of the shared control block: afterwards
every handle sharing that block reports `expired() = true` and every
subsequent dereference fails with `ptr_is_already_deleted`.  And when the
control block has already been destroyed (strong count 0), `delete_event`
is a safe no-op: the state is unchanged. -/
theorem c3_beacon_notifies (st : State) (a i : Nat) (r : Resource)
    (hr : findRes st a = some r) (hb : r.hasBeacon = true)
    (hw : r.weakCB = some i) (hrc : 0 < rcAt st i) :
    expired (destroyResource st a) (some i) = true ∧
    get (destroyResource st a) (some i) = .error .ptr_is_already_deleted ∧
    (∀ st' a' j, ((findRes st' a').bind Resource.weakCB = some j) →
      rcAt st' j = 0 → delete_event st' a' = st') := by
  obtain ⟨cb, hcb⟩ := rcAt_cb st i hrc
  have hde : delete_event st a =
      updCB st i fun c => { c with deleted := true } := by
    simp [delete_event, hr, hb, hw, hrc]
  have hexp : expired (destroyResource st a) (some i) = true := by
    show expired (updRes (delete_event st a) a _) (some i) = true
    simp only [expired, cbs_updRes, hde, cbs_updCB, if_pos rfl, hcb]
    rfl
  refine ⟨hexp, by simp [get, hexp], ?_⟩
  intro st' a' j hj hrc0
  cases hfr : findRes st' a' with
  | none => simp [delete_event, hfr]
  | some r' =>
    rw [hfr] at hj
    simp only [Option.some_bind] at hj
    by_cases hb' : r'.hasBeacon
    · simp [delete_event, hfr, hb', hj, hrc0]
    · simp [delete_event, hfr, hb']

/-- Witness for C3: one control block tracking a beacon-bearing object at
address 1, plus the no-op case on a state whose block is destroyed. -/
theorem c3_beacon_notifies_witness :
    get (destroyResource ⟨[⟨1, true, false, 1⟩], [⟨1, true, some 0, true⟩]⟩ 1)
        (some 0) = .error .ptr_is_already_deleted ∧
    delete_event ⟨[⟨1, true, false, 0⟩], [⟨1, true, some 0, true⟩]⟩ 1 =
      ⟨[⟨1, true, false, 0⟩], [⟨1, true, some 0, true⟩]⟩ := by
  have h := c3_beacon_notifies ⟨[⟨1, true, false, 1⟩], [⟨1, true, some 0, true⟩]⟩
    1 0 ⟨1, true, some 0, true⟩ rfl rfl rfl (by decide)
  exact ⟨h.2.1, h.2.2 ⟨[⟨1, true, false, 0⟩], [⟨1, true, some 0, true⟩]⟩ 1 0
    rfl rfl⟩

/-! ### C9: control-block construction and the deleter -/

/-- C9: a freshly allocated control block starts with `_acquired = false`
and `_deleted = false`; when the last handle sharing block `i` is destroyed
(strong count 1 dropping to 0), the `detail::deleter` destroys the tracked
object exactly when `_acquired` is false — an acquired object is left alive
for its exclusive owner — and in either case the block storage alone is
released (count 0). -/
theorem c9_deleter_frees_iff_unacquired (st : State) (i p : Nat)
    (cb : ControlBlock) (hcb : st.cbs[i]? = some cb) (hrc : cb.rc = 1) :
    (control_block_init p).acquired = false ∧
    (control_block_init p).deleted = false ∧
    rcAt (destroyHandle st (some i)) i = 0 ∧
    ((findRes (destroyHandle st (some i)) cb.ptr).map Resource.alive =
      if cb.acquired then (findRes st cb.ptr).map Resource.alive
      else (findRes st cb.ptr).map fun _ => false) := by
  have hstep : destroyHandle st (some i) =
      (if cb.acquired then updCB st i fun c => { c with rc := 0 }
       else destroyResource (updCB st i fun c => { c with rc := 0 }) cb.ptr)
      := by
    simp [destroyHandle, hcb, hrc]
  have hrc0 : ∀ st₀ : State, st₀.cbs[i]? = some cb →
      rcAt (updCB st₀ i fun c => { c with rc := 0 }) i = 0 := by
    intro st₀ h₀
    simp [rcAt, cbs_updCB, h₀]
  cases hacq : cb.acquired with
  | true =>
    rw [hstep, hacq]
    simp only [if_true]
    exact ⟨rfl, rfl, hrc0 st hcb, rfl⟩
  | false =>
    rw [hstep, hacq]
    simp only [Bool.false_eq_true, if_false]
    refine ⟨rfl, rfl, ?_, ?_⟩
    · show rcAt (updRes (delete_event _ cb.ptr) cb.ptr _) i = 0
      have hru : ∀ st₁ : State, rcAt (updRes st₁ cb.ptr
          fun r => { r with alive := false }) i = rcAt st₁ i := fun _ => rfl
      rw [hru, rcAt_delete_event]
      exact hrc0 st hcb
    · show (findRes (updRes (delete_event _ cb.ptr) cb.ptr
        fun r => { r with alive := false }) cb.ptr).map Resource.alive = _
      rw [findRes_updRes (delete_event (updCB st i fun c => { c with rc := 0 })
        cb.ptr) cb.ptr (fun r => { r with alive := false }) (fun r => rfl)]
      have hres : findRes (delete_event (updCB st i fun c => { c with rc := 0 })
          cb.ptr) cb.ptr = findRes st cb.ptr := by
        unfold findRes
        rw [ress_delete_event]
        rfl
      rw [hres]
      cases hfr : findRes st cb.ptr with
      | none => rfl
      | some r =>
        have : r.addr = cb.ptr := by
          have := List.find?_some hfr
          simpa using this
        simp [this]

/-- Witness for C9: dropping the last handle on an unacquired block deletes
the object; on an acquired block the object survives. -/
theorem c9_deleter_frees_iff_unacquired_witness :
    (findRes (destroyHandle ⟨[⟨1, false, false, 1⟩], [⟨1, false, none, true⟩]⟩
        (some 0)) 1).map Resource.alive = some false ∧
    (findRes (destroyHandle ⟨[⟨1, true, false, 1⟩], [⟨1, false, none, true⟩]⟩
        (some 0)) 1).map Resource.alive = some true := by
  have h1 := (c9_deleter_frees_iff_unacquired
    ⟨[⟨1, false, false, 1⟩], [⟨1, false, none, true⟩]⟩ 0 0
    ⟨1, false, false, 1⟩ rfl rfl).2.2.2
  have h2 := (c9_deleter_frees_iff_unacquired
    ⟨[⟨1, true, false, 1⟩], [⟨1, false, none, true⟩]⟩ 0 0
    ⟨1, true, false, 1⟩ rfl rfl).2.2.2
  refine ⟨?_, ?_⟩
  · rw [show (⟨1, false, false, 1⟩ : ControlBlock).ptr = 1 from rfl] at h1
    rw [h1]
    rfl
  · rw [show (⟨1, true, false, 1⟩ : ControlBlock).ptr = 1 from rfl] at h2
    rw [h2]
    rfl

/-- The address freshly allocated by `make_owned` carries no live weak
back-reference: the new resource's beacon slot is still empty. -/
theorem lockSecret_fresh (st : State) (virt : Bool) :
    lockSecret
      { st with ress := st.ress ++
          [{ addr := freshAddr st, hasBeacon := virt, weakCB := none,
             alive := true }] }
      (freshAddr st) = none := by
  have hfind : findRes
      { st with ress := st.ress ++
          [{ addr := freshAddr st, hasBeacon := virt, weakCB := none,
             alive := true }] }
      (freshAddr st) =
      some { addr := freshAddr st, hasBeacon := virt, weakCB := none,
             alive := true } := by
    show (st.ress ++ [_]).find? _ = _
    rw [find?_append_of_none _ st.ress _ (findRes_freshAddr st)]
    simp [List.find?]
  have hane : freshAddr st ≠ 0 := by simp [freshAddr]
  simp only [lockSecret, hane, if_false, hfind]
  cases virt <;> simp

/-! ### C2: monotonicity of the `acquired` / `deleted` flags -/

theorem updAt_updAt (l : List α) (i : Nat) (f g : α → α) :
    updAt (updAt l i f) i g = updAt l i (g ∘ f) := by
  induction l generalizing i with
  | nil => rfl
  | cons a t ih => cases i <;> simp [updAt, ih]

/-- Flag `v` never reverts from `true` between the two control-block lists
(position-wise). -/
abbrev MonoL (v : ControlBlock → Bool) (l l' : List ControlBlock) : Prop :=
  ∀ (i : Nat) (cb cb' : ControlBlock), l[i]? = some cb → l'[i]? = some cb' →
    v cb = true → v cb' = true

theorem monoL_refl (v : ControlBlock → Bool) (l : List ControlBlock) :
    MonoL v l l := by
  intro i cb cb' h h' hd
  rw [h, Option.some.injEq] at h'
  exact h' ▸ hd

theorem monoL_updAt (v : ControlBlock → Bool) (l : List ControlBlock)
    (i : Nat) (f : ControlBlock → ControlBlock)
    (hf : ∀ cb, v cb = true → v (f cb) = true) :
    MonoL v l (updAt l i f) := by
  intro j cb cb' h h' hd
  rw [getElem?_updAt] at h'
  by_cases hij : i = j
  · rw [if_pos hij, h] at h'
    have h'' : f cb = cb' := by simpa using h'
    exact h'' ▸ hf cb hd
  · rw [if_neg hij, h, Option.some.injEq] at h'
    exact h' ▸ hd

theorem monoL_append (v : ControlBlock → Bool) (l l₂ : List ControlBlock) :
    MonoL v l (l ++ l₂) := by
  intro i cb cb' h h' hd
  have hi : i < l.length := by
    rcases List.getElem?_eq_some.1 h with ⟨hlt, _⟩
    exact hlt
  rw [List.getElem?_append_left hi, h, Option.some.injEq] at h'
  exact h' ▸ hd

theorem monoL_trans (v : ControlBlock → Bool)
    {l₁ l₂ l₃ : List ControlBlock} (hlen : l₁.length ≤ l₂.length)
    (h12 : MonoL v l₁ l₂) (h23 : MonoL v l₂ l₃) : MonoL v l₁ l₃ := by
  intro i cb cb' h h' hd
  have hi : i < l₂.length := by
    rcases List.getElem?_eq_some.1 h with ⟨hlt, _⟩
    omega
  have hm : l₂[i]? = some l₂[i] := List.getElem?_eq_getElem hi
  exact h23 i _ cb' hm h' (h12 i cb _ h hm hd)

theorem monoL_delete_event (v : ControlBlock → Bool)
    (hv : ∀ cb, v cb = true → v { cb with deleted := true } = true)
    (st : State) (a : Nat) : MonoL v st.cbs (delete_event st a).cbs := by
  unfold delete_event
  cases hfr : findRes st a with
  | none => exact monoL_refl v st.cbs
  | some r =>
    cases hw : r.weakCB with
    | none =>
      by_cases hb : r.hasBeacon <;> simp [hb, hw] <;>
        exact monoL_refl v st.cbs
    | some j =>
      by_cases hb : r.hasBeacon
      · by_cases hj : 0 < rcAt st j
        · simp only [hb, hw, hj, if_true]
          exact monoL_updAt v st.cbs j _ hv
        · simp only [hb, hw, hj, if_false]
          exact monoL_refl v st.cbs
      · simp only [hb, Bool.false_eq_true, if_false]
        exact monoL_refl v st.cbs

/-- The constructor's effect on the control-block list: either a point
update combining the count bump with the `_acquired` overwrite, or a pure
allocation at the end. -/
theorem cbs_ctor_cases (st : State) (p : Nat) (acq : Bool) :
    (∃ i, (owned_pointer_ctor st p acq).1.cbs =
      updAt st.cbs i fun cb => { cb with rc := cb.rc + 1, acquired := acq }) ∨
    (∃ c, (owned_pointer_ctor st p acq).1.cbs = st.cbs ++ [c]) := by
  cases hl : lockSecret st p with
  | some i =>
    obtain ⟨_, hst⟩ := ctor_attach st p acq i hl
    refine Or.inl ⟨i, ?_⟩
    rw [hst]
    show updAt (updAt st.cbs i _) i _ = _
    rw [updAt_updAt]
    rfl
  | none =>
    obtain ⟨_, hcbs⟩ := ctor_fresh st p acq hl
    exact Or.inr ⟨_, hcbs⟩

theorem monoL_ctor (v : ControlBlock → Bool) (st : State) (p : Nat)
    (acq : Bool)
    (hv : ∀ cb, v cb = true →
      v { cb with rc := cb.rc + 1, acquired := acq } = true) :
    MonoL v st.cbs (owned_pointer_ctor st p acq).1.cbs := by
  rcases cbs_ctor_cases st p acq with ⟨i, heq⟩ | ⟨c, heq⟩
  · rw [heq]
    exact monoL_updAt v st.cbs i _ hv
  · rw [heq]
    exact monoL_append v st.cbs [c]

/-- Per-operation monotonicity: the `_deleted` slot of any control block
never reverts under any public operation; the `_acquired` slot never
reverts under any operation other than construction from a
`unique_ptr` / raw pointer. -/
theorem monoL_applyOp (st : State) (op : Op) :
    MonoL (fun cb => cb.deleted) st.cbs (applyOp st op).cbs ∧
    ((∀ u, op ≠ Op.fromUnique u) →
      MonoL (fun cb => cb.acquired) st.cbs (applyOp st op).cbs) := by
  cases op with
  | fromUnique u =>
    refine ⟨monoL_ctor _ st u false (fun cb h => h), fun hne => ?_⟩
    exact absurd rfl (hne u)
  | fromLink u =>
    exact ⟨monoL_ctor _ st u true (fun cb h => h),
      fun _ => monoL_ctor _ st u true (fun cb _ => rfl)⟩
  | mkOwned virt =>
    have hcbs : (applyOp st (Op.mkOwned virt)).cbs =
        st.cbs ++ [control_block_init (freshAddr st)] := by
      have h := (ctor_fresh _ (freshAddr st) false
        (lockSecret_fresh st virt)).2
      exact h
    rw [hcbs]
    exact ⟨monoL_append _ st.cbs _, fun _ => monoL_append _ st.cbs _⟩
  | copy h =>
    cases h with
    | none => exact ⟨monoL_refl _ _, fun _ => monoL_refl _ _⟩
    | some i =>
      exact ⟨monoL_updAt _ st.cbs i _ (fun cb hd => hd),
        fun _ => monoL_updAt _ st.cbs i _ (fun cb hd => hd)⟩
  | acquire h =>
    have hmono : ∀ v : ControlBlock → Bool,
        (∀ cb, v cb = true → v { cb with acquired := true } = true) →
        MonoL v st.cbs (unique_ptr st h).1.cbs := by
      intro v hv
      by_cases h0 : get_pointer st h = 0
      · rw [unique_ptr_of_null st h h0]
        exact monoL_refl v st.cbs
      · by_cases ha : acquired st h = true
        · rw [unique_ptr_of_acquired st h h0 ha]
          exact monoL_refl v st.cbs
        · cases h with
          | none => exact absurd (by rfl) h0
          | some i =>
            rw [unique_ptr_of_free st i h0 (by simpa using ha)]
            exact monoL_updAt v st.cbs i _ hv
    exact ⟨hmono (fun cb => cb.deleted) (fun cb hd => hd),
      fun _ => hmono (fun cb => cb.acquired) (fun cb _ => rfl)⟩
  | deref h => exact ⟨monoL_refl _ _, fun _ => monoL_refl _ _⟩
  | dropHandle h =>
    have hmono : ∀ v : ControlBlock → Bool,
        (∀ cb, v cb = true → v { cb with deleted := true } = true) →
        (∀ cb x, v { cb with rc := x } = v cb) →
        MonoL v st.cbs (destroyHandle st h).cbs := by
      intro v hv hrcv
      cases h with
      | none => exact monoL_refl v st.cbs
      | some i =>
        cases hcb : st.cbs[i]? with
        | none =>
          simp only [destroyHandle, hcb]
          exact monoL_refl v st.cbs
        | some cb =>
          simp only [destroyHandle, hcb]
          by_cases hrc : cb.rc ≤ 1
          · rw [if_pos hrc]
            by_cases hacq : cb.acquired = true
            · rw [if_pos hacq]
              exact monoL_updAt v st.cbs i _
                (fun c hd => by rw [hrcv]; exact hd)
            · rw [if_neg hacq]
              have hlen : st.cbs.length ≤
                  (updCB st i fun c => { c with rc := 0 }).cbs.length := by
                show st.cbs.length ≤ (updAt st.cbs i _).length
                rw [updAt_length]
              exact monoL_trans v hlen
                (monoL_updAt v st.cbs i _
                  (fun c hd => by rw [hrcv]; exact hd))
                (monoL_delete_event v hv _ cb.ptr)
          · rw [if_neg hrc]
            exact monoL_updAt v st.cbs i _
              (fun c hd => by rw [hrcv]; exact hd)
    exact ⟨hmono (fun cb => cb.deleted) (fun cb _ => rfl) (fun cb x => rfl),
      fun _ => hmono (fun cb => cb.acquired) (fun cb hd => hd)
        (fun cb x => rfl)⟩
  | dropResource a =>
    exact ⟨monoL_delete_event (fun cb => cb.deleted) (fun c _ => rfl) st a,
      fun _ =>
        monoL_delete_event (fun cb => cb.acquired) (fun c hd => hd) st a⟩

/-- C2 (amended): over any public operation, a control block's `_deleted`
slot never reverts from true to false; its `_acquired` slot never reverts
under any operation **except** construction from a `unique_ptr` / raw
pointer, whose re-attachment to a live control block overwrites the slot
with `false` (see the counterexample). -/
theorem c2_flags_monotone (st : State) (op : Op) (i : Nat)
    (cb cb' : ControlBlock) (h1 : st.cbs[i]? = some cb)
    (h2 : (applyOp st op).cbs[i]? = some cb') :
    (cb.deleted = true → cb'.deleted = true) ∧
    ((∀ u, op ≠ Op.fromUnique u) → cb.acquired = true →
      cb'.acquired = true) := by
  obtain ⟨hdel, hacq⟩ := monoL_applyOp st op
  exact ⟨fun hd => hdel i cb cb' h1 h2 hd,
    fun hne ha => hacq hne i cb cb' h1 h2 ha⟩

/-- Witness for C2 (amended): a `fromLink` step on a state holding an
already-deleted, acquired block keeps both flags set. -/
theorem c2_flags_monotone_witness :
    ((applyOp ⟨[⟨1, true, true, 1⟩], []⟩ (Op.fromLink 9)).cbs[0]?.map
      fun cb => (cb.deleted, cb.acquired)) = some (true, true) := by
  have hcb : (applyOp ⟨[⟨1, true, true, 1⟩], []⟩ (Op.fromLink 9)).cbs[0]? =
      some ⟨1, true, true, 1⟩ := by decide
  have h' := c2_flags_monotone ⟨[⟨1, true, true, 1⟩], []⟩ (Op.fromLink 9) 0
    ⟨1, true, true, 1⟩ ⟨1, true, true, 1⟩ rfl hcb
  rw [hcb]
  exact congrArg some
    (Prod.ext (h'.1 rfl) (h'.2 (fun u h => Op.noConfusion h) rfl))

/-- C2 counterexample: `make_owned` a beacon-bearing object (address 1),
acquire it (`_acquired` goes true), then re-wrap the released address
through the `unique_ptr` constructor: the constructor re-attaches to the
live control block and resets `_acquired` to false — the flag reverts. -/
theorem c2_acquired_reverts :
    ((applyOp (applyOp ⟨[], []⟩ (Op.mkOwned true)) (Op.acquire (some 0))).cbs.map
      ControlBlock.acquired = [true]) ∧
    ((applyOp (applyOp (applyOp ⟨[], []⟩ (Op.mkOwned true))
        (Op.acquire (some 0))) (Op.fromUnique 1)).cbs.map
      ControlBlock.acquired = [false]) := by decide

/-! ### C5: control-block re-use through the beacon -/

/-- C5 (amended): constructing a handle over a raw address whose beacon
still resolves to a live control block attaches to that block — no new
block is allocated, the handle shares the existing index and its strong
count is bumped; a fresh control block (holding this address, this
`_acquired` flag, `_deleted = false`, count 1) is allocated exactly when no
live back-reference exists — which is always the case for non-polymorphic
resource types, so the one-block-per-resource invariant is maintained only
along the beacon path (see the counterexample for a duplicated tracking). -/
theorem c5_beacon_reuse (st : State) (p : Nat) (acq : Bool) :
    (∀ i, lockSecret st p = some i →
      (owned_pointer_ctor st p acq).2 = some i ∧
      (owned_pointer_ctor st p acq).1.cbs.length = st.cbs.length ∧
      rcAt (owned_pointer_ctor st p acq).1 i = rcAt st i + 1) ∧
    (lockSecret st p = none →
      (owned_pointer_ctor st p acq).2 = some st.cbs.length ∧
      (owned_pointer_ctor st p acq).1.cbs.length = st.cbs.length + 1 ∧
      (owned_pointer_ctor st p acq).1.cbs[st.cbs.length]? =
        some { ptr := p, acquired := acq, deleted := false, rc := 1 }) := by
  constructor
  · intro i hl
    obtain ⟨h2, hst⟩ := ctor_attach st p acq i hl
    obtain ⟨cb, hcb⟩ := rcAt_cb st i (lockSecret_live st p i hl)
    refine ⟨h2, ?_, ?_⟩
    · rw [hst]
      show (updAt (updAt st.cbs i _) i _).length = _
      rw [updAt_length, updAt_length]
    · rw [hst]
      simp [rcAt, cbs_updCB, hcb]
  · intro hl
    obtain ⟨h2, hcbs⟩ := ctor_fresh st p acq hl
    refine ⟨h2, ?_, ?_⟩
    · rw [hcbs]
      simp
    · rw [hcbs]
      exact List.getElem?_concat_length st.cbs _

/-- Witness for C5 (amended), both branches: a beacon-bearing resource at
address 1 tracked by live block 0 is re-attached (no allocation); a state
with no live back-reference allocates block 0 afresh. -/
theorem c5_beacon_reuse_witness :
    ((owned_pointer_ctor ⟨[⟨1, false, false, 1⟩], [⟨1, true, some 0, true⟩]⟩
        1 false).2 = some 0 ∧
      (owned_pointer_ctor ⟨[⟨1, false, false, 1⟩], [⟨1, true, some 0, true⟩]⟩
        1 false).1.cbs.length = 1) ∧
    ((owned_pointer_ctor ⟨[], []⟩ 5 false).2 = some 0 ∧
      (owned_pointer_ctor ⟨[], []⟩ 5 false).1.cbs.length = 1) := by
  have h1 := (c5_beacon_reuse
    ⟨[⟨1, false, false, 1⟩], [⟨1, true, some 0, true⟩]⟩ 1 false).1 0
    (by decide)
  have h2 := (c5_beacon_reuse ⟨[], []⟩ 5 false).2 (by decide)
  exact ⟨⟨h1.1, h1.2.1⟩, ⟨h2.1, h2.2.1⟩⟩

/-- C5 counterexample: a resource at address 1 without a beacon (any
non-polymorphic type), wrapped twice through link tokens — perfectly legal,
as in `link(u)` called twice on one `unique_ptr` — ends up tracked by TWO
distinct live control blocks at once, refuting "exactly one ControlBlock
exists per tracked resource at any time". -/
theorem c5_two_blocks_one_resource :
    ((fromLink (fromLink ⟨[], [⟨1, false, none, true⟩]⟩ 1).1 1).1.cbs.map
      fun cb => (cb.ptr, decide (0 < cb.rc))) = [(1, true), (1, true)] := by
  decide

end Pobu
